import Mathlib

/-!
Shallow embedding of the ReviewIQ backend core (task queue, worker loop,
TripAdvisor scraper extraction, report statistics), translated from
src/backend/task_queue.py, src/backend/scrapers/tripadvisor/scraper.py and
src/backend/report_service.py, together with theorems settling the frozen
claims about the natural-language specification.

Modelling conventions:
* SQLite rows of the tasks table are a Lean list kept in insertion order;
  AUTOINCREMENT ids are strictly increasing along that order.
* Timestamps are natural numbers passed explicitly where the code calls
  datetime.now().
* The query ORDER BY created_at ASC LIMIT 1 scans rows in rowid order and
  keeps the first row among those with the minimal created_at, which is the
  stable minimum over the insertion order.
* Browser state is abstracted into a ScrapeEnv record: what each DOM query
  would return for a given review card, and what heading a profile page
  shows for a given href (none encodes a timeout or a missing element).
* Python floats for ratings are modelled as rationals; the pandas mean of a
  column with no numeric value is NaN, modelled as none.
-/

namespace ReviewIQ

/-- Status lifecycle of a task, from TaskStatus in task_queue.py. -/
inductive TaskStatus where
  | pending
  | processing
  | completed
  | failed
deriving DecidableEq, Repr

/-- One row of the tasks table created by init_task_db in task_queue.py. -/
structure Task where
  id : Nat
  task_type : String
  payload : String
  status : TaskStatus
  result : Option String
  error : Option String
  created_at : Nat
  started_at : Option Nat
  completed_at : Option Nat
  retries : Nat
deriving DecidableEq, Repr

/-- add_task from task_queue.py: a fresh row with status pending and
retries 0; id is the AUTOINCREMENT rowid, created_at the insertion time. -/
def add_task (task_type : String) (payload : String) (id : Nat) (now : Nat) : Task :=
  { id := id
    task_type := task_type
    payload := payload
    status := TaskStatus.pending
    result := none
    error := none
    created_at := now
    started_at := none
    completed_at := none
    retries := 0 }

/-- update_task_status from task_queue.py: the three UPDATE branches.
The processing branch sets started_at, the completed branch stores the
result and completed_at, the failed branch stores the error, completed_at
and increments retries.  A pending argument matches no branch, so the row
is unchanged. -/
def update_task_status (t : Task) (status : TaskStatus) (now : Nat)
    (result : Option String) (error : Option String) : Task :=
  match status with
  | TaskStatus.processing =>
      { t with status := TaskStatus.processing, started_at := some now }
  | TaskStatus.completed =>
      { t with status := TaskStatus.completed, result := result,
               completed_at := some now }
  | TaskStatus.failed =>
      { t with status := TaskStatus.failed, error := error,
               completed_at := some now, retries := t.retries + 1 }
  | TaskStatus.pending => t

/-- The spec name mark_processing: update_task_status with PROCESSING. -/
def mark_processing (t : Task) (now : Nat) : Task :=
  update_task_status t TaskStatus.processing now none none

/-- The spec name mark_completed: update_task_status with COMPLETED. -/
def mark_completed (t : Task) (now : Nat) (result : String) : Task :=
  update_task_status t TaskStatus.completed now (some result) none

/-- The spec name mark_failed: update_task_status with FAILED. -/
def mark_failed (t : Task) (now : Nat) (error : String) : Task :=
  update_task_status t TaskStatus.failed now none (some error)

/-- The inline UPDATE in run_worker that resets a failed task to pending
(the retry requeue); it touches only the status column. -/
def requeue (t : Task) : Task :=
  { t with status := TaskStatus.pending }

/-- Stable minimum by created_at over a list of rows in scan order:
the model of ORDER BY created_at ASC LIMIT 1, which keeps the first row
among those sharing the minimal created_at. -/
def minByCreated : List Task → Option Task
  | [] => none
  | t :: ts =>
    match minByCreated ts with
    | none => some t
    | some b => if t.created_at ≤ b.created_at then some t else some b

/-- get_pending_task from task_queue.py: SELECT ... WHERE status =
pending ORDER BY created_at ASC LIMIT 1 over the table rows. -/
def get_pending_task (ts : List Task) : Option Task :=
  minByCreated (ts.filter fun t => decide (t.status = TaskStatus.pending))

/-- One mutation of a task row performed by run_worker in task_queue.py:
mark processing after dequeue, mark completed or failed at the task
boundary, or the retry requeue.  The requeue guard translates the check
on the retries value fetched at dequeue time, which is one less than the
value after the failed-branch increment. -/
inductive WorkerStep : Task → Task → Prop where
  | toProcessing (t : Task) (now : Nat) (h : t.status = TaskStatus.pending) :
      WorkerStep t (mark_processing t now)
  | toCompleted (t : Task) (now : Nat) (r : String)
      (h : t.status = TaskStatus.processing) :
      WorkerStep t (mark_completed t now r)
  | toFailed (t : Task) (now : Nat) (e : String)
      (h : t.status = TaskStatus.processing) :
      WorkerStep t (mark_failed t now e)
  | requeueRetry (t : Task) (h : t.status = TaskStatus.failed)
      (hr : t.retries ≤ 3) :
      WorkerStep t (requeue t)

/-- Task states reachable from an enqueue through worker mutations. -/
inductive ReachableTask : Task → Prop where
  | init (task_type payload : String) (id now : Nat) :
      ReachableTask (add_task task_type payload id now)
  | step {t u : Task} : ReachableTask t → WorkerStep t u → ReachableTask u

/-- One worker-loop iteration on a dequeued task, from run_worker in
task_queue.py: mark processing; for the scrape-and-report type run the
handler and mark completed or failed accordingly, otherwise raise
ValueError on the unknown type; on any failure the error string is the
exception class name, a colon and the message, and the task is requeued
when the retries value fetched at dequeue time is below 3. -/
def worker_iteration (t : Task) (now : Nat)
    (handlerOutcome : Except String String) : Task :=
  let t1 := mark_processing t now
  if t.task_type = "scrape_and_report" then
    match handlerOutcome with
    | Except.ok r => mark_completed t1 now r
    | Except.error e =>
        let t2 := mark_failed t1 now e
        if t.retries < 3 then requeue t2 else t2
  else
    let e := "ValueError: Unknown task type: " ++ t.task_type
    let t2 := mark_failed t1 now e
    if t.retries < 3 then requeue t2 else t2

/-! Scraper embedding: string primitives used by the Python code.  The
Python string methods lower, strip and split are re-implemented over the
character list so that every definition evaluates inside the kernel; they
agree with Python on the ASCII inputs at hand. -/

/-- Substring test, the Python expression needle in hay over characters. -/
def hasSub (needle : List Char) : List Char → Bool
  | [] => needle.isEmpty
  | c :: t => needle.isPrefixOf (c :: t) || hasSub needle t

/-- Python regex class backslash-s over the ASCII inputs at hand. -/
def isPySpace (c : Char) : Bool :=
  c = ' ' || c = '\t' || c = '\n' || c = '\r' || c = '\x0b' || c = '\x0c'

/-- Python str.lower over the ASCII inputs at hand. -/
def pyLower (s : String) : String :=
  String.mk (s.data.map Char.toLower)

/-- Python str.strip over the character list: leading and trailing
whitespace removed. -/
def stripChars (cs : List Char) : List Char :=
  ((cs.dropWhile isPySpace).reverse.dropWhile isPySpace).reverse

/-- Python str.strip on a string. -/
def pyStrip (s : String) : String :=
  String.mk (stripChars s.data)

/-- Split a character list at every occurrence of the separator; the
Python str.split with an explicit separator, so adjacent separators give
empty pieces and the empty input gives one empty piece. -/
def splitOnChar (sep : Char) : List Char → List (List Char)
  | [] => [[]]
  | c :: t =>
    let r := splitOnChar sep t
    if c = sep then [] :: r
    else
      match r with
      | [] => [[c]]
      | h :: rs => (c :: h) :: rs

/-- The Python expression text.split over newline on a string. -/
def pyLines (s : String) : List String :=
  (splitOnChar '\x0a' s.data).map fun cs => String.mk cs

/-- Python regex class backslash-w over the ASCII inputs at hand. -/
def isPyWord (c : Char) : Bool :=
  c.isAlphanum || c = '_'

/-- Numeric value of a run of decimal digits. -/
def digitsToNat (ds : List Char) : Nat :=
  ds.foldl (fun n c => 10 * n + (c.toNat - 48)) 0

/-- Python float applied to the captured rating group, which is a digit
run, optionally a dot, then a digit run; modelled exactly as a rational. -/
def parseFloat (cs : List Char) : ℚ :=
  let intPart := cs.takeWhile Char.isDigit
  let rest := cs.dropWhile Char.isDigit
  match rest with
  | '.' :: frac =>
      Rat.divInt (digitsToNat intPart * (10 : Int) ^ frac.length + digitsToNat frac)
        ((10 : Int) ^ frac.length)
  | _ => (digitsToNat intPart : ℚ)

/-- Attempt of the rating pattern, digits, optional dot, digits, optional
spaces, the letters of, optional spaces, the digit 5, anchored at the head
of the input; returns the captured number group.  The greedy first attempt
is exhaustive here: giving characters back from the number never lets the
tail of the pattern match, since the tail starts with spaces or the letter
o while the returned characters are digits or the dot. -/
def matchRatingAt (s : List Char) : Option (List Char) :=
  let d1 := s.takeWhile Char.isDigit
  let r1 := s.dropWhile Char.isDigit
  if d1.isEmpty then none
  else
    let dotPart : List Char := match r1 with | '.' :: _ => ['.'] | _ => []
    let r2 : List Char := match r1 with | '.' :: u => u | _ => r1
    let d2 := r2.takeWhile Char.isDigit
    let r3 := r2.dropWhile Char.isDigit
    match r3.dropWhile isPySpace with
    | 'o' :: 'f' :: r5 =>
      match r5.dropWhile isPySpace with
      | '5' :: _ => some (d1 ++ dotPart ++ d2)
      | _ => none
    | _ => none

/-- re.search for the rating pattern: leftmost starting position wins. -/
def reSearchRating : List Char → Option (List Char)
  | [] => none
  | c :: t =>
    match matchRatingAt (c :: t) with
    | some g => some g
    | none => reSearchRating t

/-- Attempt of the date pattern, word characters, spaces, four digits,
anchored at the head of the input; returns the captured group.  As with
the rating pattern, the greedy attempt is exhaustive. -/
def matchDateAt (s : List Char) : Option (List Char) :=
  let w := s.takeWhile isPyWord
  let r1 := s.dropWhile isPyWord
  if w.isEmpty then none
  else
    let sp := r1.takeWhile isPySpace
    let r2 := r1.dropWhile isPySpace
    if sp.isEmpty then none
    else
      let ds := r2.take 4
      if ds.length = 4 && ds.all Char.isDigit then some (w ++ sp ++ ds) else none

/-- re.search for the date pattern: leftmost starting position wins. -/
def reSearchDate : List Char → Option (List Char)
  | [] => none
  | c :: t =>
    match matchDateAt (c :: t) with
    | some g => some g
    | none => reSearchDate t

/-! Scraper embedding: DOM and session model. -/

/-- What the DOM queries of one review card element would return; none
models a missing element (the find_element call raising) or a missing
attribute.  bodyText is the text of the body container after any
read-more expansion. -/
structure Card where
  username : Option String
  ratingAria : Option String
  dateText : Option String
  contribText : Option String
  profileHref : Option String
  bodyText : Option String
deriving DecidableEq, Repr

/-- The browser world outside the review cards: the heading text shown by
the profile page at a given href, none modelling a window that fails to
open, a wait timeout or a missing heading element. -/
structure ScrapeEnv where
  profileHeading : String → Option String

/-- One collected review row, the dict built in scrape_page. -/
structure Review where
  username : String
  location : String
  rating : Option ℚ
  date : Option String
  text : String
deriving DecidableEq, Repr

/-- extract_rating from scraper.py: read the aria label of the bubble
element and search it for the rating pattern; None when the element is
missing or the pattern does not match. -/
def extract_rating (c : Card) : Option ℚ :=
  match c.ratingAria with
  | none => none
  | some aria => (reSearchRating aria.data).map parseFloat

/-- extract_date from scraper.py: only a text mentioning wrote a review
is searched for the Month Year token. -/
def extract_date (c : Card) : Option String :=
  match c.dateText with
  | none => none
  | some dt =>
      if hasSub "wrote a review".data (pyLower dt).data then
        (reSearchDate dt.data).map fun g => String.mk g
      else none

/-- extract_username from scraper.py: the anchor text, default Anonymous
when the element is missing. -/
def extract_username (c : Card) : String :=
  c.username.getD "Anonymous"

/-- extract_review_text from scraper.py: the container text after any
read-more expansion, default the empty string. -/
def extract_review_text (c : Card) : String :=
  c.bodyText.getD ""

/-- Lookup in the location cache, a Python dict keyed by profile href. -/
def cacheLookup (cache : List (String × String)) (k : String) : Option String :=
  (cache.find? fun p => decide (p.1 = k)).map Prod.snd

/-- Result of one origin-location resolution: the returned string, the
cache afterwards, and whether an auxiliary profile window was opened. -/
structure LocResult where
  loc : String
  cache : List (String × String)
  navigated : Bool
deriving DecidableEq, Repr

/-- The line scan of the inline tier: the first line that does not mention
contribution and whose stripped form is nonempty of length above two. -/
def firstGoodLine : List String → Option String
  | [] => none
  | l :: ls =>
      if hasSub " contribution".data (pyLower l).data then firstGoodLine ls
      else
        let location := pyStrip l
        if location ≠ "" ∧ 2 < location.length then some location
        else firstGoodLine ls

/-- The inline tier of get_user_location_fast: inspect the short metadata
block; when it mentions contribution, return the first accepted line. -/
def inline_location (contribText : Option String) : Option String :=
  match contribText with
  | none => none
  | some text =>
      if hasSub " contribution".data (pyLower text).data then
        firstGoodLine (pyLines text)
      else none

/-- get_user_location_fast from scraper.py: inline tier first; otherwise
read the profile href, serve a cached value when present, else open the
profile in an auxiliary window, read the heading, cache it on success;
default Unknown when every tier fails.  A missing anchor or an absent or
empty href skips the profile tier entirely. -/
def get_user_location_fast (env : ScrapeEnv) (cache : List (String × String))
    (c : Card) : LocResult :=
  match inline_location c.contribText with
  | some loc => ⟨loc, cache, false⟩
  | none =>
    match c.profileHref with
    | none => ⟨"Unknown", cache, false⟩
    | some href =>
      if href = "" then ⟨"Unknown", cache, false⟩
      else
        match cacheLookup cache href with
        | some loc => ⟨loc, cache, false⟩
        | none =>
          match env.profileHeading href with
          | some loc => ⟨loc, (href, loc) :: cache, true⟩
          | none => ⟨"Unknown", cache, true⟩

/-- Cache evolution over a sequence of resolutions within one run. -/
def resolveAll (env : ScrapeEnv) : List (String × String) → List Card →
    List (String × String)
  | cache, [] => cache
  | cache, c :: cs => resolveAll env (get_user_location_fast env cache c).cache cs

/-- scrape_page from scraper.py: walk the card elements of the current
page in DOM order; the break compares the count collected on previous
pages, nCollected, against max_reviews; every extractor runs, the location
cache is threaded through, and the row is kept only when a rating was
extracted. -/
def scrape_page (env : ScrapeEnv) :
    List (String × String) → Nat → Nat → List Card →
    List Review × List (String × String)
  | cache, _, _, [] => ([], cache)
  | cache, nCollected, max_reviews, c :: cs =>
    if max_reviews ≤ nCollected then ([], cache)
    else
      let u := extract_username c
      let lr := get_user_location_fast env cache c
      let r := extract_rating c
      let d := extract_date c
      let tx := extract_review_text c
      let rest := scrape_page env lr.cache nCollected max_reviews cs
      if r.isSome then (⟨u, lr.loc, r, d, tx⟩ :: rest.1, rest.2)
      else (rest.1, rest.2)

/-- How the main loop of run in scraper.py ends: the collected count
reached max_reviews, or go_to_next_page found no enabled next control. -/
inductive RunEnd where
  | targetReached
  | noNextPage
deriving DecidableEq, Repr

/-- The main loop of run from scraper.py over the successive page DOMs:
scrape the current page, extend the collected list, stop when the target
is reached, else move to the next page or stop when none is left. -/
def run_pages (env : ScrapeEnv) (max_reviews : Nat) :
    List Review → List (String × String) → List Card → List (List Card) →
    List Review × RunEnd
  | acc, cache, cur, [] =>
    let pr := scrape_page env cache acc.length max_reviews cur
    let acc2 := acc ++ pr.1
    if max_reviews ≤ acc2.length then (acc2, RunEnd.targetReached)
    else (acc2, RunEnd.noNextPage)
  | acc, cache, cur, p :: ps =>
    let pr := scrape_page env cache acc.length max_reviews cur
    let acc2 := acc ++ pr.1
    if max_reviews ≤ acc2.length then (acc2, RunEnd.targetReached)
    else run_pages env max_reviews acc2 pr.2 p ps

/-- run from scraper.py: an empty collected list and an empty location
cache to start; the while guard is checked before the first page. -/
def run (env : ScrapeEnv) (max_reviews : Nat) (pages : List (List Card)) :
    List Review × RunEnd :=
  if max_reviews = 0 then ([], RunEnd.targetReached)
  else
    match pages with
    | [] => ([], RunEnd.noNextPage)
    | p :: ps => run_pages env max_reviews [] [] p ps

/-! Report statistics from report_service.py, shared by
generate_report_for_order and update_report_with_data. -/

/-- pandas nunique over a string column: the number of distinct values. -/
def nunique (xs : List String) : Nat :=
  xs.dedup.length

/-- total_reviews in report_service.py: len of the data frame. -/
def total_reviews (rs : List Review) : Nat :=
  rs.length

/-- countries_count in report_service.py: nunique of the location column;
an empty record sequence gives a frame without the column and the count 0. -/
def countries_count (rs : List Review) : Nat :=
  if rs.isEmpty then 0 else nunique (rs.map Review.location)

/-- avg_rating in report_service.py: the pandas mean of the rating column,
which skips absent values and is NaN, modelled none, when no value is
present; an empty record sequence gives a frame without the column and the
for-else then yields 0. -/
def avg_rating (rs : List Review) : Option ℚ :=
  if rs.isEmpty then some 0
  else
    let vals := rs.filterMap Review.rating
    if vals.isEmpty then none
    else some (vals.sum / (vals.length : ℚ))

/-- Modelled from the spec wording of the ReportAssembler contract: the
number of distinct origin_location values with the default Unknown not
counted; written to be compared against countries_count. -/
def distinct_origin_count_spec (rs : List Review) : Nat :=
  ((rs.map Review.location).filter fun l => decide (l ≠ "Unknown")).dedup.length

/-- Modelled from the spec wording of the ReportAssembler contract: the
arithmetic mean of the present rating values, 0 when none is present;
written to be compared against avg_rating. -/
def mean_rating_spec (rs : List Review) : ℚ :=
  let vals := rs.filterMap Review.rating
  if vals.isEmpty then 0 else vals.sum / (vals.length : ℚ)

/-! Helper lemmas on the task mutations. -/

@[simp] lemma mark_processing_retries (t : Task) (now : Nat) :
    (mark_processing t now).retries = t.retries := rfl

@[simp] lemma mark_processing_status (t : Task) (now : Nat) :
    (mark_processing t now).status = TaskStatus.processing := rfl

@[simp] lemma mark_completed_retries (t : Task) (now : Nat) (r : String) :
    (mark_completed t now r).retries = t.retries := rfl

@[simp] lemma mark_completed_status (t : Task) (now : Nat) (r : String) :
    (mark_completed t now r).status = TaskStatus.completed := rfl

@[simp] lemma mark_failed_retries (t : Task) (now : Nat) (e : String) :
    (mark_failed t now e).retries = t.retries + 1 := rfl

@[simp] lemma mark_failed_status (t : Task) (now : Nat) (e : String) :
    (mark_failed t now e).status = TaskStatus.failed := rfl

@[simp] lemma mark_failed_error (t : Task) (now : Nat) (e : String) :
    (mark_failed t now e).error = some e := rfl

@[simp] lemma requeue_retries (t : Task) : (requeue t).retries = t.retries := rfl

@[simp] lemma requeue_status (t : Task) : (requeue t).status = TaskStatus.pending := rfl

@[simp] lemma add_task_retries (a b : String) (i n : Nat) :
    (add_task a b i n).retries = 0 := rfl

@[simp] lemma add_task_status (a b : String) (i n : Nat) :
    (add_task a b i n).status = TaskStatus.pending := rfl

/-- Retry-budget invariant of the worker mutations: the retries counter is
bounded by 4 and only a failed task can hold the value 4. -/
lemma worker_invariant {t : Task} (h : ReachableTask t) :
    t.retries ≤ 4 ∧ (t.status ≠ TaskStatus.failed → t.retries ≤ 3) := by
  induction h with
  | init tt p i n => simp
  | step _ hs ih =>
    cases hs with
    | toProcessing now hp =>
        have h3 := ih.2 (by simp [hp])
        exact ⟨by simp; omega, fun _ => by simpa using h3⟩
    | toCompleted now r hp =>
        have h3 := ih.2 (by simp [hp])
        exact ⟨by simp; omega, fun _ => by simpa using h3⟩
    | toFailed now e hp =>
        have h3 := ih.2 (by simp [hp])
        exact ⟨by simp; omega, fun hne => by simp at hne⟩
    | requeueRetry hf2 hr =>
        exact ⟨by simp; omega, fun _ => by simpa using hr⟩

/-- C1: as stated, retry_count never exceeds 3 and a task whose
retry_count equals 3 stays failed.  False on the code: the requeue guard
compares the retries value fetched at dequeue time, so the third failure,
which raises retries to 3, is still requeued, and a fourth failure raises
retries to 4.  The concrete trace below reaches a pending task with
retries 3 and then a task with retries 4. -/
def c1t0 : Task := add_task "scrape_and_report" "p" 1 0

/-- One processing-failure round of the worker on a task. -/
def c1fail (t : Task) : Task := mark_failed (mark_processing t 0) 0 "E"

/-- One full failure-and-requeue cycle of the worker on a task. -/
def c1cycle (t : Task) : Task := requeue (c1fail t)

lemma reachable_c1fail {t : Task} (h : ReachableTask t)
    (hp : t.status = TaskStatus.pending) : ReachableTask (c1fail t) :=
  ReachableTask.step
    (ReachableTask.step h (WorkerStep.toProcessing t 0 hp))
    (WorkerStep.toFailed (mark_processing t 0) 0 "E" rfl)

lemma reachable_c1cycle {t : Task} (h : ReachableTask t)
    (hp : t.status = TaskStatus.pending) (hr : t.retries ≤ 2) :
    ReachableTask (c1cycle t) :=
  ReachableTask.step (reachable_c1fail h hp)
    (WorkerStep.requeueRetry (c1fail t) rfl (by simp [c1fail]; omega))

/-- C1 counterexample: after three failures the task is reachable in state
pending with retries already 3, and a fourth failure pushes retries to 4,
so retry_count does exceed 3 and a task with retry_count 3 does leave the
failed status. -/
theorem C1_counterexample :
    (ReachableTask (c1cycle (c1cycle (c1cycle c1t0))) ∧
      (c1cycle (c1cycle (c1cycle c1t0))).retries = 3 ∧
      (c1cycle (c1cycle (c1cycle c1t0))).status = TaskStatus.pending) ∧
    (ReachableTask (c1fail (c1cycle (c1cycle (c1cycle c1t0)))) ∧
      3 < (c1fail (c1cycle (c1cycle (c1cycle c1t0)))).retries) := by
  have h0 : ReachableTask c1t0 := ReachableTask.init "scrape_and_report" "p" 1 0
  have h1 : ReachableTask (c1cycle c1t0) := reachable_c1cycle h0 rfl (by decide)
  have h2 : ReachableTask (c1cycle (c1cycle c1t0)) :=
    reachable_c1cycle h1 rfl (by decide)
  have h3 : ReachableTask (c1cycle (c1cycle (c1cycle c1t0))) :=
    reachable_c1cycle h2 rfl (by decide)
  exact ⟨⟨h3, rfl, rfl⟩, ⟨reachable_c1fail h3 rfl, by decide⟩⟩

/-- C1 amended: along every reachable task history, retries never exceeds
4; only a failed task can hold retries above 3; a task with retries 4 is
terminally failed, no worker mutation applies to it any more; and a failed
task can be requeued exactly when its already incremented retries value is
at most 3, that is when the value fetched at dequeue time was below 3. -/
theorem C1_amended (t : Task) (h : ReachableTask t) :
    t.retries ≤ 4 ∧
    (t.status ≠ TaskStatus.failed → t.retries ≤ 3) ∧
    (t.retries = 4 → t.status = TaskStatus.failed ∧ ∀ u, ¬ WorkerStep t u) ∧
    (t.status = TaskStatus.failed →
      ((∃ u, WorkerStep t u ∧ u.status = TaskStatus.pending) ↔ t.retries ≤ 3)) := by
  obtain ⟨h4, h3⟩ := worker_invariant h
  refine ⟨h4, h3, ?_, ?_⟩
  · intro hr4
    have hf : t.status = TaskStatus.failed := by
      by_contra hne
      have := h3 hne
      omega
    refine ⟨hf, ?_⟩
    intro u hs
    cases hs with
    | toProcessing now hp => rw [hp] at hf; exact absurd hf (by decide)
    | toCompleted now r hp => rw [hp] at hf; exact absurd hf (by decide)
    | toFailed now e hp => rw [hp] at hf; exact absurd hf (by decide)
    | requeueRetry hfa hr => omega
  · intro hf
    constructor
    · rintro ⟨u, hs, hup⟩
      cases hs with
      | toProcessing now hp => rw [hp] at hf; exact absurd hf (by decide)
      | toCompleted now r hp => rw [hp] at hf; exact absurd hf (by decide)
      | toFailed now e hp => rw [hp] at hf; exact absurd hf (by decide)
      | requeueRetry hfa hr => exact hr
    · intro hr
      exact ⟨requeue t, WorkerStep.requeueRetry t hf hr, rfl⟩

/-- C1 amended witness: the amended theorem applied to the freshly
enqueued task, which is reachable by construction. -/
theorem C1_amended_witness :
    ReachableTask (add_task "scrape_and_report" "p" 1 0) ∧
    (add_task "scrape_and_report" "p" 1 0).retries ≤ 4 :=
  ⟨ReachableTask.init "scrape_and_report" "p" 1 0,
   (C1_amended _ (ReachableTask.init "scrape_and_report" "p" 1 0)).1⟩

/-- C6: as stated, the three status transitions are idempotent.  False on
the code for mark_failed: its UPDATE increments retries on every call, so
a second application with identical arguments changes the row again. -/
theorem C6_counterexample :
    mark_failed (mark_failed (add_task "scrape_and_report" "p" 1 0) 0 "E") 0 "E" ≠
      mark_failed (add_task "scrape_and_report" "p" 1 0) 0 "E" := by
  intro h
  have := congrArg Task.retries h
  simp at this

/-- C6 amended: mark_processing and mark_completed are idempotent under
identical arguments, while mark_failed increments retries on every call,
so a repeated mark_failed for the same failure always changes the task
further. -/
theorem C6_amended (t : Task) (now : Nat) (r e : String) :
    mark_processing (mark_processing t now) now = mark_processing t now ∧
    mark_completed (mark_completed t now r) now r = mark_completed t now r ∧
    (mark_failed t now e).retries = t.retries + 1 ∧
    (mark_failed (mark_failed t now e) now e).retries = t.retries + 2 ∧
    mark_failed (mark_failed t now e) now e ≠ mark_failed t now e := by
  refine ⟨rfl, rfl, rfl, rfl, ?_⟩
  intro h
  have := congrArg Task.retries h
  simp at this

/-- C9: a dequeued task of unknown type is not skipped: the worker raises
ValueError inside the handler dispatch, marks the task failed with the
error string built from the exception class and message, increments
retries, and requeues exactly when the retries value fetched at dequeue
time is below 3. -/
theorem C9_unknown_type (t : Task) (now : Nat) (out : Except String String)
    (h : t.task_type ≠ "scrape_and_report") :
    (worker_iteration t now out).error =
        some ("ValueError: Unknown task type: " ++ t.task_type) ∧
    (worker_iteration t now out).retries = t.retries + 1 ∧
    ((worker_iteration t now out).status = TaskStatus.pending ↔ t.retries < 3) ∧
    (3 ≤ t.retries → (worker_iteration t now out).status = TaskStatus.failed) := by
  unfold worker_iteration
  rw [if_neg h]
  by_cases hr : t.retries < 3
  · simp only [if_pos hr]
    refine ⟨rfl, rfl, by simp [hr], by omega⟩
  · simp only [if_neg hr]
    refine ⟨rfl, rfl, ?_, fun _ => rfl⟩
    simp only [mark_failed_status]
    constructor
    · intro hc; exact absurd hc (by decide)
    · intro hc; omega

/-- C9 witness: the unknown-type theorem applied to a concrete enqueued
task of type email_report with retries 0. -/
theorem C9_unknown_type_witness :
    (worker_iteration (add_task "email_report" "p" 1 0) 7 (Except.ok "r")).retries =
      (add_task "email_report" "p" 1 0).retries + 1 :=
  (C9_unknown_type (add_task "email_report" "p" 1 0) 7 (Except.ok "r")
    (by decide)).2.1

/-! C3: dequeue ordering. -/

/-- The spec ordering on tasks: smaller created_at first, ties broken by
smaller id. -/
def lexLE (a b : Task) : Prop :=
  a.created_at < b.created_at ∨ (a.created_at = b.created_at ∧ a.id ≤ b.id)

instance (a b : Task) : Decidable (lexLE a b) := by
  unfold lexLE; infer_instance

lemma minByCreated_none_iff (l : List Task) : minByCreated l = none ↔ l = [] := by
  cases l with
  | nil => simp [minByCreated]
  | cons t ts =>
    simp only [minByCreated]
    cases minByCreated ts with
    | none => simp
    | some b =>
      by_cases hc : t.created_at ≤ b.created_at <;> simp [hc]

lemma minByCreated_mem : ∀ (l : List Task) (t : Task),
    minByCreated l = some t → t ∈ l := by
  intro l
  induction l with
  | nil => intro t h; simp [minByCreated] at h
  | cons a l ih =>
    intro t h
    simp only [minByCreated] at h
    cases hm : minByCreated l with
    | none =>
      rw [hm] at h
      simp at h
      simp [h]
    | some b =>
      rw [hm] at h
      simp only [] at h
      by_cases hc : a.created_at ≤ b.created_at
      · rw [if_pos hc] at h
        simp at h
        simp [h]
      · rw [if_neg hc] at h
        simp at h
        right
        rw [← h]
        exact ih b hm

/-- The stable minimum over an id-sorted row list is the lexicographic
minimum by created_at then id. -/
lemma minByCreated_lex : ∀ (l : List Task),
    (l.Pairwise fun a b => a.id < b.id) → ∀ (t : Task),
    minByCreated l = some t → ∀ u ∈ l, lexLE t u := by
  intro l
  induction l with
  | nil => intro _ t h; simp [minByCreated] at h
  | cons a l ih =>
    intro hp t h
    obtain ⟨ha, hl⟩ := List.pairwise_cons.mp hp
    simp only [minByCreated] at h
    cases hm : minByCreated l with
    | none =>
      rw [hm] at h
      simp at h
      have hle : l = [] := (minByCreated_none_iff l).mp hm
      subst hle
      intro u hu
      simp at hu
      subst hu
      rw [← h]
      exact Or.inr ⟨rfl, le_refl _⟩
    | some b =>
      rw [hm] at h
      simp only [] at h
      have hbmem := minByCreated_mem l b hm
      have hblex := ih hl b hm
      by_cases hc : a.created_at ≤ b.created_at
      · rw [if_pos hc] at h
        simp at h
        subst h
        intro u hu
        rcases List.mem_cons.mp hu with hu | hu
        · subst hu; exact Or.inr ⟨rfl, le_refl _⟩
        · have hbu := hblex u hu
          have haid : a.id < b.id := ha b hbmem
          unfold lexLE at hbu ⊢
          omega
      · rw [if_neg hc] at h
        simp at h
        subst h
        intro u hu
        rcases List.mem_cons.mp hu with hu | hu
        · subst hu
          exact Or.inl (by omega)
        · exact hblex u hu

/-- C3: over any table whose ids ascend in insertion order, the dequeue
query returns none exactly when no row is pending, and otherwise returns
a pending row that is smallest by created_at with ties broken by id. -/
theorem C3_dequeue (ts : List Task) (hid : ts.Pairwise fun a b => a.id < b.id) :
    (get_pending_task ts = none ↔ ∀ t ∈ ts, t.status ≠ TaskStatus.pending) ∧
    ∀ t, get_pending_task ts = some t →
      t ∈ ts ∧ t.status = TaskStatus.pending ∧
      ∀ u ∈ ts, u.status = TaskStatus.pending → lexLE t u := by
  constructor
  · unfold get_pending_task
    rw [minByCreated_none_iff, List.filter_eq_nil_iff]
    simp
  · intro t h
    unfold get_pending_task at h
    have hmem := minByCreated_mem _ _ h
    have hfil : t ∈ ts ∧ t.status = TaskStatus.pending := by
      have := List.mem_filter.mp hmem
      simpa using this
    have hpf := hid.filter (fun t => decide (t.status = TaskStatus.pending))
    have hlex := minByCreated_lex _ hpf _ h
    refine ⟨hfil.1, hfil.2, ?_⟩
    intro u hu hup
    exact hlex u (List.mem_filter.mpr ⟨hu, by simp [hup]⟩)

/-- A concrete three-row table with a created_at tie among the pending
rows: one completed older row, then two pending rows sharing created_at 7. -/
def c3taskA : Task :=
  { id := 1, task_type := "scrape_and_report", payload := "a",
    status := TaskStatus.completed, result := some "ok", error := none,
    created_at := 5, started_at := some 5, completed_at := some 6, retries := 0 }

/-- Second row of the concrete C3 table, pending with created_at 7. -/
def c3taskB : Task :=
  { id := 2, task_type := "scrape_and_report", payload := "b",
    status := TaskStatus.pending, result := none, error := none,
    created_at := 7, started_at := none, completed_at := none, retries := 0 }

/-- Third row of the concrete C3 table, pending with created_at 7. -/
def c3taskC : Task :=
  { id := 3, task_type := "scrape_and_report", payload := "c",
    status := TaskStatus.pending, result := none, error := none,
    created_at := 7, started_at := none, completed_at := none, retries := 0 }

/-- C3 witness: the dequeue theorem applied to the concrete table, whose
dequeue result is the pending row with the smaller id among the tie. -/
theorem C3_dequeue_witness :
    c3taskB ∈ [c3taskA, c3taskB, c3taskC] ∧
    c3taskB.status = TaskStatus.pending ∧
    ∀ u ∈ [c3taskA, c3taskB, c3taskC],
      u.status = TaskStatus.pending → lexLE c3taskB u :=
  (C3_dequeue [c3taskA, c3taskB, c3taskC] (by decide)).2 c3taskB (by decide)

/-! C4: the rating gate. -/

/-- A browser world in which every profile lookup fails. -/
def envNone : ScrapeEnv := ⟨fun _ => none⟩

/-- A card whose rating label reads N/A. -/
def c4cardNA : Card :=
  ⟨some "u1", some "N/A", none, none, none, none⟩

/-- A card whose rating label reads 4.0 of 5. -/
def c4card40 : Card :=
  ⟨some "u2", some "4.0 of 5", none, none, none, none⟩

/-- A card whose rating label reads 3 of 5. -/
def c4card3 : Card :=
  ⟨some "u3", some "3 of 5", none, none, none, none⟩

lemma scrape_page_rating (env : ScrapeEnv) :
    ∀ (cards : List Card) (cache : List (String × String)) (n m : Nat),
    ∀ r ∈ (scrape_page env cache n m cards).1, r.rating.isSome = true := by
  intro cards
  induction cards with
  | nil => intro cache n m r hr; simp [scrape_page] at hr
  | cons c cs ih =>
    intro cache n m r hr
    simp only [scrape_page] at hr
    by_cases hg : m ≤ n
    · rw [if_pos hg] at hr; simp at hr
    · rw [if_neg hg] at hr
      by_cases hs : (extract_rating c).isSome
      · rw [if_pos hs] at hr
        rcases List.mem_cons.mp hr with h | h
        · subst h; simpa using hs
        · exact ih _ _ _ r h
      · rw [if_neg hs] at hr
        exact ih _ _ _ r hr

lemma run_pages_mem (env : ScrapeEnv) (m : Nat) :
    ∀ (rest : List (List Card)) (acc : List Review)
      (cache : List (String × String)) (cur : List Card),
    ∀ r ∈ (run_pages env m acc cache cur rest).1,
      r ∈ acc ∨ r.rating.isSome = true := by
  intro rest
  induction rest with
  | nil =>
    intro acc cache cur r hr
    simp only [run_pages] at hr
    have hr2 : r ∈ acc ++ (scrape_page env cache acc.length m cur).1 := by
      by_cases hg : m ≤ (acc ++ (scrape_page env cache acc.length m cur).1).length
      · rw [if_pos hg] at hr; exact hr
      · rw [if_neg hg] at hr; exact hr
    rcases List.mem_append.mp hr2 with h | h
    · exact Or.inl h
    · exact Or.inr (scrape_page_rating env cur cache acc.length m r h)
  | cons p ps ih =>
    intro acc cache cur r hr
    simp only [run_pages] at hr
    by_cases hg : m ≤ (acc ++ (scrape_page env cache acc.length m cur).1).length
    · rw [if_pos hg] at hr
      rcases List.mem_append.mp hr with h | h
      · exact Or.inl h
      · exact Or.inr (scrape_page_rating env cur cache acc.length m r h)
    · rw [if_neg hg] at hr
      rcases ih _ _ _ r hr with h | h
      · rcases List.mem_append.mp h with h2 | h2
        · exact Or.inl h2
        · exact Or.inr (scrape_page_rating env cur cache acc.length m r h2)
      · exact Or.inr h

/-- C4: a record enters a run's collected sequence only when a rating was
extracted from its card, and the rating parse behaves as stated on the
three cited label texts: N/A yields no rating, 4.0 of 5 yields 4, 3 of 5
yields 3. -/
theorem C4_rating_gate :
    (∀ (env : ScrapeEnv) (max_reviews : Nat) (pages : List (List Card)),
       ∀ r ∈ (run env max_reviews pages).1, r.rating.isSome = true) ∧
    extract_rating c4cardNA = none ∧
    extract_rating c4card40 = some 4 ∧
    extract_rating c4card3 = some 3 := by
  refine ⟨?_, by decide, by decide, by decide⟩
  intro env max_reviews pages r hr
  unfold run at hr
  by_cases h0 : max_reviews = 0
  · rw [if_pos h0] at hr; simp at hr
  · rw [if_neg h0] at hr
    cases pages with
    | nil => simp at hr
    | cons p ps =>
      rcases run_pages_mem env max_reviews ps [] [] p r hr with h | h
      · simp at h
      · exact h

/-- C4 witness: the gate applied to a one-page run over the 4.0 of 5 card,
whose single collected record indeed carries a rating. -/
theorem C4_rating_gate_witness :
    (Review.mk "u2" "Unknown" (some 4) none "").rating.isSome = true :=
  C4_rating_gate.1 envNone 1 [[c4card40]]
    (Review.mk "u2" "Unknown" (some 4) none "") (by decide)

/-! C7: the profile-location cache. -/

/-- C7: within one run, the second resolution that falls back to an
already resolved profile reference returns the cached value, leaves the
cache unchanged and opens no auxiliary window, while the first resolution
of that reference did navigate. -/
theorem C7_profile_cache (env : ScrapeEnv) (cache : List (String × String))
    (c1 c2 : Card) (href loc : String)
    (h1 : inline_location c1.contribText = none)
    (h2 : inline_location c2.contribText = none)
    (hf1 : c1.profileHref = some href)
    (hf2 : c2.profileHref = some href)
    (hne : href ≠ "")
    (hmiss : cacheLookup cache href = none)
    (hworld : env.profileHeading href = some loc) :
    get_user_location_fast env cache c1 = ⟨loc, (href, loc) :: cache, true⟩ ∧
    get_user_location_fast env ((href, loc) :: cache) c2 =
      ⟨loc, (href, loc) :: cache, false⟩ := by
  constructor
  · unfold get_user_location_fast
    simp only [h1, hf1, hmiss, hworld, if_neg hne]
  · have elook : cacheLookup ((href, loc) :: cache) href = some loc := by
      simp [cacheLookup]
    unfold get_user_location_fast
    simp only [h2, hf2, elook, if_neg hne]

/-- A browser world holding one profile page with the heading Paris. -/
def c7env : ScrapeEnv :=
  ⟨fun h => if h = "/Profile/u7" then some "Paris" else none⟩

/-- A card without inline metadata whose profile anchor points at the one
known profile page. -/
def c7card : Card :=
  ⟨some "u7", some "5 of 5", none, none, some "/Profile/u7", some "t"⟩

/-- C7 witness: the cache theorem applied to a concrete world, an empty
cache and the same card encountered twice. -/
theorem C7_profile_cache_witness :
    get_user_location_fast c7env [] c7card =
      ⟨"Paris", [("/Profile/u7", "Paris")], true⟩ ∧
    get_user_location_fast c7env [("/Profile/u7", "Paris")] c7card =
      ⟨"Paris", [("/Profile/u7", "Paris")], false⟩ :=
  C7_profile_cache c7env [] c7card c7card "/Profile/u7" "Paris"
    rfl rfl rfl rfl (by decide) rfl (by decide)

/-! C8: the inline location tier. -/

/-- C8 counterexample: the metadata block holds a contributions line and
the line NY, which is not a contributions line and is nonempty after
stripping, yet the inline tier rejects it, because the code also requires
a stripped length above two; resolution falls through against the claim. -/
theorem C8_counterexample :
    inline_location (some "5 contributions\x0aNY") = none ∧
    hasSub " contribution".data (pyLower "5 contributions\x0aNY").data = true ∧
    pyLines "5 contributions\x0aNY" = ["5 contributions", "NY"] ∧
    hasSub " contribution".data (pyLower "NY").data = false ∧
    pyStrip "NY" ≠ "" := by
  refine ⟨by decide, by decide, ?_, by decide, by decide⟩
  decide

lemma pyStrip_ne_nil_of_two_lt {l : String} (h : 2 < (pyStrip l).length) :
    pyStrip l ≠ "" := by
  intro hcon
  rw [hcon] at h
  exact absurd h (by decide)

lemma firstGoodLine_eq_none_iff : ∀ (ls : List String),
    firstGoodLine ls = none ↔
      ∀ l ∈ ls, hasSub " contribution".data (pyLower l).data = true ∨
        ¬ 2 < (pyStrip l).length := by
  intro ls
  induction ls with
  | nil => simp [firstGoodLine]
  | cons l ls ih =>
    simp only [firstGoodLine]
    by_cases hc : hasSub " contribution".data (pyLower l).data = true
    · rw [if_pos hc]
      constructor
      · intro h l2 h2
        rcases List.mem_cons.mp h2 with h2 | h2
        · subst h2; exact Or.inl hc
        · exact (ih.mp h) l2 h2
      · intro hall
        exact ih.mpr fun l2 h2 => hall l2 (List.mem_cons_of_mem l h2)
    · rw [if_neg hc]
      by_cases hd : pyStrip l ≠ "" ∧ 2 < (pyStrip l).length
      · rw [if_pos hd]
        constructor
        · intro h; exact absurd h (by simp)
        · intro hall
          rcases hall l (List.mem_cons_self l ls) with h | h
          · exact absurd h hc
          · exact absurd hd.2 h
      · rw [if_neg hd]
        have hlen : ¬ 2 < (pyStrip l).length :=
          fun hb => hd ⟨pyStrip_ne_nil_of_two_lt hb, hb⟩
        constructor
        · intro h l2 h2
          rcases List.mem_cons.mp h2 with h2 | h2
          · subst h2; exact Or.inr hlen
          · exact (ih.mp h) l2 h2
        · intro hall
          exact ih.mpr fun l2 h2 => hall l2 (List.mem_cons_of_mem l h2)

lemma firstGoodLine_first : ∀ (ls : List String) (loc : String),
    firstGoodLine ls = some loc →
    ∃ pre l post, ls = pre ++ l :: post ∧
      (∀ l2 ∈ pre, hasSub " contribution".data (pyLower l2).data = true ∨
        ¬ 2 < (pyStrip l2).length) ∧
      hasSub " contribution".data (pyLower l).data = false ∧
      2 < (pyStrip l).length ∧ loc = pyStrip l := by
  intro ls
  induction ls with
  | nil => intro loc h; simp [firstGoodLine] at h
  | cons l ls ih =>
    intro loc h
    simp only [firstGoodLine] at h
    by_cases hc : hasSub " contribution".data (pyLower l).data = true
    · rw [if_pos hc] at h
      obtain ⟨pre, l1, post, hsplit, hpre, hrest⟩ := ih loc h
      refine ⟨l :: pre, l1, post, ?_, ?_, hrest⟩
      · rw [List.cons_append, hsplit]
      · intro l2 h2
        rcases List.mem_cons.mp h2 with h2 | h2
        · subst h2; exact Or.inl hc
        · exact hpre l2 h2
    · rw [if_neg hc] at h
      by_cases hd : pyStrip l ≠ "" ∧ 2 < (pyStrip l).length
      · rw [if_pos hd] at h
        simp at h
        exact ⟨[], l, ls, rfl, by simp, by simpa using hc, hd.2, h.symm⟩
      · rw [if_neg hd] at h
        obtain ⟨pre, l1, post, hsplit, hpre, hrest⟩ := ih loc h
        refine ⟨l :: pre, l1, post, ?_, ?_, hrest⟩
        · rw [List.cons_append, hsplit]
        · intro l2 h2
          rcases List.mem_cons.mp h2 with h2 | h2
          · subst h2
            exact Or.inr fun hb => hd ⟨pyStrip_ne_nil_of_two_lt hb, hb⟩
          · exact hpre l2 h2

/-- C8 amended: when the metadata block mentions contribution, the inline
tier accepts a line only if, beyond not being a contributions line, its
stripped form has length above two rather than merely being nonempty.
The tier falls through exactly when no line passes that test; whenever
some line passes it, a location is returned, namely the stripped form of
the first passing line, every line before which fails the test. -/
theorem C8_amended (text : String)
    (hc : hasSub " contribution".data (pyLower text).data = true) :
    (inline_location (some text) = none ↔
      ∀ l ∈ pyLines text,
        hasSub " contribution".data (pyLower l).data = true ∨
        ¬ 2 < (pyStrip l).length) ∧
    (∀ l ∈ pyLines text,
      hasSub " contribution".data (pyLower l).data = false →
      2 < (pyStrip l).length →
      ∃ loc, inline_location (some text) = some loc) ∧
    (∀ loc, inline_location (some text) = some loc →
      ∃ pre l post, pyLines text = pre ++ l :: post ∧
        (∀ l2 ∈ pre, hasSub " contribution".data (pyLower l2).data = true ∨
          ¬ 2 < (pyStrip l2).length) ∧
        hasSub " contribution".data (pyLower l).data = false ∧
        2 < (pyStrip l).length ∧ loc = pyStrip l) := by
  have hunf : inline_location (some text) = firstGoodLine (pyLines text) := by
    unfold inline_location
    simp only []
    rw [if_pos hc]
  have hiff := firstGoodLine_eq_none_iff (pyLines text)
  refine ⟨by rw [hunf]; exact hiff, ?_, ?_⟩
  · intro l hmem hnc hlen
    cases hres : firstGoodLine (pyLines text) with
    | some loc => exact ⟨loc, by rw [hunf, hres]⟩
    | none =>
      rcases hiff.mp hres l hmem with hcon | hcon
      · rw [hnc] at hcon; exact absurd hcon (by decide)
      · exact absurd hlen hcon
  · intro loc h
    rw [hunf] at h
    exact firstGoodLine_first (pyLines text) loc h

/-- C8 amended witness: in the block whose lines are a contributions
line, the too-short line NY and the line Paris, France, the tier skips
the first two and returns the stripped third line. -/
theorem C8_amended_witness :
    ∃ pre l post,
      pyLines "2 contributions\x0aNY\x0aParis, France" = pre ++ l :: post ∧
      (∀ l2 ∈ pre, hasSub " contribution".data (pyLower l2).data = true ∨
        ¬ 2 < (pyStrip l2).length) ∧
      hasSub " contribution".data (pyLower l).data = false ∧
      2 < (pyStrip l).length ∧ "Paris, France" = pyStrip l :=
  (C8_amended "2 contributions\x0aNY\x0aParis, France" (by decide)).2.2
    "Paris, France" (by decide)

/-! C10: the cache stores only successful profile extractions. -/

lemma cacheLookup_mem {cache : List (String × String)} {k v : String}
    (h : cacheLookup cache k = some v) : (k, v) ∈ cache := by
  unfold cacheLookup at h
  rcases Option.map_eq_some'.mp h with ⟨x, hfind, hx⟩
  have hmem := List.mem_of_find?_eq_some hfind
  have hk : x.1 = k := by
    have := List.find?_some hfind
    simpa using this
  have : x = (k, v) := by
    cases x
    simp only at hk hx
    simp [hk, hx]
  rw [← this]
  exact hmem

lemma get_user_location_fast_cache_inv (env : ScrapeEnv)
    (cache : List (String × String)) (c : Card)
    (hinv : ∀ p ∈ cache, env.profileHeading p.1 = some p.2) :
    ∀ p ∈ (get_user_location_fast env cache c).cache,
      env.profileHeading p.1 = some p.2 := by
  unfold get_user_location_fast
  cases hi : inline_location c.contribText with
  | some loc => exact hinv
  | none =>
    cases hf : c.profileHref with
    | none => exact hinv
    | some href =>
      simp only []
      by_cases hne : href = ""
      · rw [if_pos hne]; exact hinv
      · rw [if_neg hne]
        cases hl : cacheLookup cache href with
        | some loc => exact hinv
        | none =>
          cases hw : env.profileHeading href with
          | some loc =>
            intro p hp
            rcases List.mem_cons.mp hp with h | h
            · rw [h]; exact hw
            · exact hinv p h
          | none => exact hinv

lemma resolveAll_inv (env : ScrapeEnv) :
    ∀ (cards : List Card) (cache : List (String × String)),
    (∀ p ∈ cache, env.profileHeading p.1 = some p.2) →
    ∀ p ∈ resolveAll env cache cards, env.profileHeading p.1 = some p.2 := by
  intro cards
  induction cards with
  | nil => intro cache hinv; exact hinv
  | cons c cs ih =>
    intro cache hinv
    exact ih _ (get_user_location_fast_cache_inv env cache c hinv)

/-- C10: after any sequence of resolutions within one run, every cache
entry is a successfully extracted profile heading; consequently a
reference whose lookup fails is never cached, so a later card carrying the
same reference navigates afresh and again yields the default. -/
theorem C10_cache_only_success (env : ScrapeEnv) (cards : List Card)
    (c : Card) (href : String)
    (hi : inline_location c.contribText = none)
    (hf : c.profileHref = some href) (hne : href ≠ "")
    (hw : env.profileHeading href = none) :
    (∀ p ∈ resolveAll env [] cards, env.profileHeading p.1 = some p.2) ∧
    get_user_location_fast env (resolveAll env [] cards) c =
      ⟨"Unknown", resolveAll env [] cards, true⟩ := by
  have hinv := resolveAll_inv env cards [] (by simp)
  refine ⟨hinv, ?_⟩
  have hlk : cacheLookup (resolveAll env [] cards) href = none := by
    cases hlk : cacheLookup (resolveAll env [] cards) href with
    | none => rfl
    | some v =>
      have hmem := cacheLookup_mem hlk
      have hsome := hinv _ hmem
      rw [hw] at hsome
      exact absurd hsome (by simp)
  unfold get_user_location_fast
  simp only [hi, hf, hlk, hw, if_neg hne]

/-- A card whose profile anchor points at a page whose lookup fails. -/
def c10card : Card :=
  ⟨some "u10", some "5 of 5", none, none, some "/Profile/u10", some "t"⟩

/-- C10 witness: in the world where every lookup fails, after resolving
the same card once, a second resolution still navigates and defaults. -/
theorem C10_cache_only_success_witness :
    (∀ p ∈ resolveAll envNone [] [c10card], envNone.profileHeading p.1 = some p.2) ∧
    get_user_location_fast envNone (resolveAll envNone [] [c10card]) c10card =
      ⟨"Unknown", resolveAll envNone [] [c10card], true⟩ :=
  C10_cache_only_success envNone [c10card] c10card "/Profile/u10"
    rfl rfl (by decide) rfl

/-! C2: the collected-count bound and the fixture scenario. -/

/-- First fixture card, rated 5 of 5. -/
def c2c1 : Card :=
  ⟨some "r1", some "5 of 5", none, none, none, some "t1"⟩

/-- Second fixture card, whose rating label does not parse. -/
def c2bad : Card :=
  ⟨some "r2", some "N/A", none, none, none, none⟩

/-- Third fixture card, rated 4.0 of 5. -/
def c2c3 : Card :=
  ⟨some "r3", some "4.0 of 5", none, none, none, some "t3"⟩

/-- C2 counterexample: with max_records 2 and a single page of three rated
cards, the run collects all three records, because the mid-page stop
compares only the count collected on previous pages; and on the cited
fixture, one page with three candidates of which one lacks a rating, the
run ends via the target-reached branch, not via no next page. -/
theorem C2_counterexample :
    2 < (run envNone 2 [[c2c1, c2c3, c2c1]]).1.length ∧
    (run envNone 2 [[c2c1, c2bad, c2c3]]).2 = RunEnd.targetReached ∧
    RunEnd.targetReached ≠ RunEnd.noNextPage := by
  refine ⟨by decide, by decide, by decide⟩

/-- The largest number of card elements on any page of the run. -/
def maxPageLen (pages : List (List Card)) : Nat :=
  (pages.map List.length).foldr Nat.max 0

lemma scrape_page_length_le (env : ScrapeEnv) :
    ∀ (cards : List Card) (cache : List (String × String)) (n m : Nat),
    (scrape_page env cache n m cards).1.length ≤ cards.length := by
  intro cards
  induction cards with
  | nil => intro cache n m; simp [scrape_page]
  | cons c cs ih =>
    intro cache n m
    simp only [scrape_page]
    by_cases hg : m ≤ n
    · rw [if_pos hg]; simp
    · rw [if_neg hg]
      by_cases hs : (extract_rating c).isSome
      · rw [if_pos hs]
        simp only [List.length_cons]
        exact Nat.succ_le_succ (ih _ _ _)
      · rw [if_neg hs]
        simp only [List.length_cons]
        exact Nat.le_succ_of_le (ih _ _ _)

lemma run_pages_length_lt (env : ScrapeEnv) (m : Nat) :
    ∀ (rest : List (List Card)) (acc : List Review)
      (cache : List (String × String)) (cur : List Card),
    acc.length < m →
    (run_pages env m acc cache cur rest).1.length <
      m + Nat.max cur.length (maxPageLen rest) := by
  intro rest
  induction rest with
  | nil =>
    intro acc cache cur hacc
    simp only [run_pages]
    have hb : (acc ++ (scrape_page env cache acc.length m cur).1).length <
        m + cur.length := by
      have := scrape_page_length_le env cur cache acc.length m
      simp only [List.length_append]
      omega
    have hmax : cur.length ≤ Nat.max cur.length (maxPageLen []) :=
      Nat.le_max_left _ _
    by_cases hg : m ≤ (acc ++ (scrape_page env cache acc.length m cur).1).length
    · rw [if_pos hg]; dsimp only; omega
    · rw [if_neg hg]; dsimp only; omega
  | cons p ps ih =>
    intro acc cache cur hacc
    simp only [run_pages]
    have hb : (acc ++ (scrape_page env cache acc.length m cur).1).length <
        m + cur.length := by
      have := scrape_page_length_le env cur cache acc.length m
      simp only [List.length_append]
      omega
    have hmax : cur.length ≤ Nat.max cur.length (maxPageLen (p :: ps)) :=
      Nat.le_max_left _ _
    by_cases hg : m ≤ (acc ++ (scrape_page env cache acc.length m cur).1).length
    · rw [if_pos hg]
      dsimp only
      omega
    · rw [if_neg hg]
      have hrec := ih (acc ++ (scrape_page env cache acc.length m cur).1)
        (scrape_page env cache acc.length m cur).2 p (by omega)
      have hstep : Nat.max p.length (maxPageLen ps) ≤
          Nat.max cur.length (maxPageLen (p :: ps)) := by
        have h1 : maxPageLen (p :: ps) = Nat.max p.length (maxPageLen ps) := rfl
        rw [h1]
        exact Nat.le_max_right _ _
      omega

/-- C2 amended: the mid-page stop compares the count collected on previous
pages, so every page that is entered is scraped in full; the collected
sequence can therefore overshoot max_records, but only by less than the
largest page, and on the cited fixture the run collects exactly the two
rated records in DOM order and terminates via the target-reached branch
rather than via no next page. -/
theorem C2_amended (env : ScrapeEnv) (max_reviews : Nat)
    (pages : List (List Card)) (hpos : 0 < max_reviews) :
    (run env max_reviews pages).1.length < max_reviews + maxPageLen pages ∧
    run envNone 2 [[c2c1, c2bad, c2c3]] =
      ([⟨"r1", "Unknown", some 5, none, "t1"⟩,
        ⟨"r3", "Unknown", some 4, none, "t3"⟩], RunEnd.targetReached) := by
  constructor
  · unfold run
    rw [if_neg (Nat.pos_iff_ne_zero.mp hpos)]
    cases pages with
    | nil => simpa using Or.inl hpos
    | cons p ps =>
      exact run_pages_length_lt env max_reviews ps [] [] p (by simpa using hpos)
  · decide

/-- C2 amended witness: the amended bound applied to the fixture run
itself, whose target 2 is positive. -/
theorem C2_amended_witness :
    (run envNone 2 [[c2c1, c2bad, c2c3]]).1.length <
      2 + maxPageLen [[c2c1, c2bad, c2c3]] :=
  (C2_amended envNone 2 [[c2c1, c2bad, c2c3]] (by decide)).1

/-! C5: the report statistics. -/

/-- A record located in Paris rated 4. -/
def c5a : Review := ⟨"A", "Paris", some 4, none, ""⟩

/-- A record carrying the default location Unknown, rated 5. -/
def c5b : Review := ⟨"B", "Unknown", some 5, none, ""⟩

/-- A record with no rating value. -/
def c5c : Review := ⟨"C", "Paris", none, none, ""⟩

/-- C5 counterexample: the code counts the default Unknown among the
distinct origin values, where the claim excludes it; and over a nonempty
sequence with no present rating the pandas mean is NaN, not the claimed
0. -/
theorem C5_counterexample :
    countries_count [c5a, c5b] = 2 ∧
    distinct_origin_count_spec [c5a, c5b] = 1 ∧
    (2 : Nat) ≠ 1 ∧
    avg_rating [c5c] = none ∧
    mean_rating_spec [c5c] = 0 ∧
    (none : Option ℚ) ≠ some 0 := by
  refine ⟨by decide, by decide, by decide, by decide, by decide, by decide⟩

lemma dedup_length_filter_ne (l : List String) (a : String) :
    l.dedup.length =
      (l.filter fun x => decide (x ≠ a)).dedup.length +
        (if a ∈ l then 1 else 0) := by
  classical
  rw [← List.card_toFinset, ← List.card_toFinset]
  have hfe : (l.filter fun x => decide (x ≠ a)).toFinset = l.toFinset.erase a := by
    ext x
    simp [List.mem_toFinset, Finset.mem_erase, List.mem_filter, and_comm]
  rw [hfe]
  by_cases ha : a ∈ l
  · rw [if_pos ha]
    have := Finset.card_erase_add_one (List.mem_toFinset.mpr ha)
    omega
  · rw [if_neg ha]
    rw [Finset.erase_eq_of_not_mem (fun hc => ha (List.mem_toFinset.mp hc))]
    omega

/-- C5 amended: total_reviews is the sequence length; countries_count is
the number of distinct origin values counting the default Unknown, that
is the spec count plus one exactly when Unknown occurs; and the stored
mean is the arithmetic mean of the present rating values when at least
one is present, while a nonempty sequence with no present rating stores
NaN rather than 0. -/
theorem C5_amended (rs : List Review) (hne : rs ≠ []) :
    total_reviews rs = rs.length ∧
    countries_count rs = distinct_origin_count_spec rs +
      (if "Unknown" ∈ rs.map Review.location then 1 else 0) ∧
    (∀ m, avg_rating rs = some m →
      m * ((rs.filterMap Review.rating).length : ℚ) =
        (rs.filterMap Review.rating).sum) ∧
    (avg_rating rs = none ↔ rs.filterMap Review.rating = []) := by
  have hemp : rs.isEmpty = false := by
    cases rs with
    | nil => exact absurd rfl hne
    | cons a l => rfl
  refine ⟨rfl, ?_, ?_, ?_⟩
  · unfold countries_count distinct_origin_count_spec nunique
    rw [hemp]
    simp only [Bool.false_eq_true, if_false]
    exact dedup_length_filter_ne (rs.map Review.location) "Unknown"
  · intro m hm
    unfold avg_rating at hm
    rw [hemp] at hm
    simp only [Bool.false_eq_true, if_false] at hm
    by_cases hv : (rs.filterMap Review.rating).isEmpty
    · rw [if_pos hv] at hm
      exact absurd hm (by simp)
    · rw [if_neg hv] at hm
      have hm2 : m = (rs.filterMap Review.rating).sum /
          ((rs.filterMap Review.rating).length : ℚ) := by
        exact (Option.some_inj.mp hm).symm
      have hlen : ((rs.filterMap Review.rating).length : ℚ) ≠ 0 := by
        have : rs.filterMap Review.rating ≠ [] := by
          intro hc
          rw [hc] at hv
          exact hv rfl
        have hpos : 0 < (rs.filterMap Review.rating).length :=
          List.length_pos.mpr this
        exact_mod_cast Nat.pos_iff_ne_zero.mp hpos
      rw [hm2]
      exact div_mul_cancel₀ _ hlen
  · unfold avg_rating
    rw [hemp]
    simp only [Bool.false_eq_true, if_false]
    by_cases hv : (rs.filterMap Review.rating).isEmpty
    · rw [if_pos hv]
      simp only [true_iff]
      exact List.isEmpty_iff.mp hv
    · rw [if_neg hv]
      constructor
      · intro hc; exact absurd hc (by simp)
      · intro hc
        rw [hc] at hv
        exact absurd rfl hv

/-- C5 amended witness: the amended statement applied to the nonempty
two-record sequence holding a Paris record and an Unknown record. -/
theorem C5_amended_witness :
    total_reviews [c5a, c5b] = [c5a, c5b].length ∧
    countries_count [c5a, c5b] = distinct_origin_count_spec [c5a, c5b] +
      (if "Unknown" ∈ [c5a, c5b].map Review.location then 1 else 0) ∧
    (∀ m, avg_rating [c5a, c5b] = some m →
      m * (([c5a, c5b].filterMap Review.rating).length : ℚ) =
        ([c5a, c5b].filterMap Review.rating).sum) ∧
    (avg_rating [c5a, c5b] = none ↔ [c5a, c5b].filterMap Review.rating = []) :=
  C5_amended [c5a, c5b] (by decide)

end ReviewIQ
